import Mathlib

/-!
Verification of the import-directive compiler of `crates/macros/src/lib.rs`.

The Rust code is a recursive-descent parser over a `proc_macro::TokenStream`.
The shallow embedding below models:

* `TokenTree` as an inductive with one constructor per token kind that the
  code inspects (`Ident`, `Literal`, `Punct`, `Group`); a token carries its
  textual form (for a literal this includes any surrounding quote characters,
  exactly as `value.to_string()` does in Rust).
* `PathBuf` values as lists of pushed components (`List String`); a path
  built from a plain string is the one-component list.
* The ambient machine (filesystem queries, the `windir` environment
  variable, the compile-time `HOME` value and the pointer-width conditional
  `SYSTEM32` constant) as an explicit `Env` record, so every function is
  pure and executable.
* Rust panics as `Except.error` carrying the exact panic message.
* `BTreeSet` accumulation as duplicate-free lists built by `setInsert` /
  `setExtend`; all set-valued statements below are phrased so that they do
  not depend on iteration order.
* The two loops of the source that do not consume a token on every single
  iteration step (`parse_import_stream`, `parse_dependencies`) take a fuel
  argument; the callers hand them `length + 1`, which is always enough
  because every loop iteration other than the returning one consumes at
  least one token.
-/

/-- One lexical token, as classified by the Rust `match` statements: an
identifier, a literal (with its textual form, quotes included for string
literals), a punctuation character, or a (delimited) group, which this
subsystem never looks inside of. -/
inductive TokenTree where
  | ident (text : String)
  | lit (text : String)
  | punct (ch : Char)
  | group (text : String)
  deriving DecidableEq, Repr

/-- The textual form of a token, modelling the `Display` implementation used
by the panic messages (`'{}'` formatting). -/
def token_display : TokenTree → String
  | TokenTree.ident s => s
  | TokenTree.lit s => s
  | TokenTree.punct c => String.mk [c]
  | TokenTree.group s => s

/-- The external machine state read by the compiler: filesystem
classification and listing, the `windir` environment variable, the
compile-time `HOME` value, and the pointer-width-selected `SYSTEM32`
constant. Paths are lists of pushed components. `read_dir` returns either
the entries of a directory or the text of an I/O error (a failing directory
entry, `path.expect(..)` in the source, is folded into the same error
channel). -/
structure Env where
  is_dir : List String → Bool
  is_file : List String → Bool
  read_dir : List String → Except String (List (List String))
  windir : Option String
  home : String
  system32 : String

/-- The double-quote character, written via its code point. -/
def quote_char : Char := Char.ofNat 34

/-- Lowercasing of one character; models `char::to_lowercase` on the
ASCII range (the only range exercised by this subsystem's inputs). -/
def to_lowercase_char (c : Char) : Char :=
  if 65 ≤ c.toNat ∧ c.toNat ≤ 90 then Char.ofNat (c.toNat + 32) else c

/-- `c.to_lowercase()` yields an iterator of characters that is appended to
the result string; in the modelled range it is a single character. -/
def char_to_lowercase (c : Char) : List Char := [to_lowercase_char c]

/-- Character loop of `namespace_literal_to_rough_namespace`: drop quote and
underscore characters, lowercase everything else, keep the order. -/
def rough_chars : List Char → List Char
  | [] => []
  | c :: cs =>
    if c ≠ quote_char ∧ c ≠ '_' then char_to_lowercase c ++ rough_chars cs
    else rough_chars cs

/-- The Namespace Normalizer of the source. -/
def namespace_literal_to_rough_namespace (s : String) : String :=
  String.mk (rough_chars s.data)

/-- Rust `str::trim_matches (c)`: remove every leading and trailing
occurrence of `c`. -/
def trim_matches (c : Char) (s : String) : String :=
  String.mk (((s.data.dropWhile (fun d => d == c)).reverse.dropWhile
    (fun d => d == c)).reverse)

/-- Rust `Path::extension` on one file name: the part after the last dot,
unless there is no dot or the only dot is the leading character. (The
special components `.` and `..` are not modelled; they never occur here.) -/
def rust_extension (s : String) : Option String :=
  let cs := s.data
  match ((List.range cs.length).filter
      (fun i => cs.get? i == some (Char.ofNat 46))).getLast? with
  | none => none
  | some 0 => none
  | some (i + 1) => some (String.mk (cs.drop (i + 2)))

/-- `Path::extension` of a component-list path: the extension of its last
component (Rust's `file_name`). -/
def path_extension (p : List String) : Option String :=
  match p.getLast? with
  | none => none
  | some name => rust_extension name

/-- The `{:?}` (Debug) rendering of a path used in the panic messages. -/
def path_debug (p : List String) : String :=
  "\x22" ++ String.intercalate "/" p ++ "\x22"

/-- `BTreeSet::insert`: add an element unless it is already present. The
model keeps insertion order instead of the tree's sorted order; every
claim below is stated so that it does not depend on iteration order. -/
def setInsert {α : Type} [DecidableEq α] (xs : List α) (a : α) : List α :=
  if a ∈ xs then xs else xs ++ [a]

/-- `BTreeSet::extend` / `BTreeSet::append`: insert every element of the
second set into the first. -/
def setExtend {α : Type} [DecidableEq α] (xs ys : List α) : List α :=
  ys.foldl setInsert xs

/-- `ImportCategory` of the source. -/
inductive ImportCategory where
  | Dependency
  | Namespace
  deriving DecidableEq, Repr

/-- `ParseState` of the source. -/
inductive ParseState where
  | Neither
  | ParsedNamespace
  | ParsedDependency
  | Both
  deriving DecidableEq, Repr

/-- `ParseState::parsed_namespace`. -/
def ParseState.parsed_namespace : ParseState → ParseState
  | ParseState.Neither => ParseState.ParsedNamespace
  | ParseState.ParsedDependency => ParseState.Both
  | s => s

/-- `ParseState::parsed_dependency`. -/
def ParseState.parsed_dependency : ParseState → ParseState
  | ParseState.Neither => ParseState.ParsedDependency
  | ParseState.ParsedNamespace => ParseState.Both
  | s => s

/-- Panic message of `parse_category` at end of input. -/
def msg_unexpected_end_category : String :=
  "Unexpected end of winrt::import macro. Expected either `dependencies` or `modules`"

/-- Panic message of `parse_category` on an identifier that is neither
section keyword. -/
def msg_expects (v : String) : String :=
  "winrt::import macro expects either `dependencies` or `modules` but found `" ++ v ++ "`"

/-- Panic message of `parse_category` on a non-identifier token. -/
def msg_unrecognized (t : TokenTree) : String :=
  "winrt::import macro encountered an unrecognized token: \x27" ++ token_display t
    ++ "\x27. Expected `dependencies` or `modules`"

/-- Panic message of the trailing-input assertion of `parse_import_stream`. -/
def msg_trailing (t : TokenTree) : String :=
  "Unexpected input at the end of the winrt::import: \x27" ++ token_display t ++ "\x27"

/-- Panic message for a missing `windir` environment variable. -/
def msg_windir : String := "No `windir` environment variable found"

/-- Panic message for `nuget` not followed by a colon. -/
def msg_nuget_colon : String := "`nuget` must be followed by a `:`"

/-- Panic message for a non-identifier inside a `nuget:` segment list
(source spelling preserved). -/
def msg_nuget_item : String :=
  "Unexpected input: a period seperated list of indentifiers must follow `nuget:`"

/-- Panic message for input ending inside a `nuget:` segment list. -/
def msg_nuget_end : String :=
  "Unexpected end of input: a nuget package name must follow `nuget:`"

/-- Error of the fuel counter; unreachable for the fuel values the
embedding itself passes (`length + 1`). -/
def msg_fuel : String := "internal: recursion fuel exhausted"

/-- `expand_paths` of the source: resolve one path candidate against the
filesystem into the set of descriptor files it denotes. -/
def expand_paths (env : Env) (path : List String) : Except String (List (List String)) :=
  if env.is_dir path = true then
    match env.read_dir path with
    | Except.error e =>
      Except.error ("Could not read dependecy directory at path "
        ++ path_debug path ++ ": " ++ e)
    | Except.ok entries =>
      Except.ok (entries.foldl
        (fun acc q =>
          if env.is_file q = true ∧ path_extension q = some "winmd" then setInsert acc q
          else acc) [])
  else if env.is_file path = true ∧ path_extension path = some "winmd" then
    Except.ok [path]
  else
    Except.error ("Dependency " ++ path_debug path ++ " is not a file or directory")

/-- The optional-separator step of `parse_category`: a peeked punctuation
colon is consumed, anything else is left untouched. -/
def consume_colon : List TokenTree → List TokenTree
  | TokenTree.punct c :: rest =>
    if c = ':' then rest else TokenTree.punct c :: rest
  | s => s

/-- `parse_category` of the source: read the next section keyword and the
optional colon after it. -/
def parse_category (stream : List TokenTree) :
    Except String (ImportCategory × List TokenTree) :=
  match stream with
  | [] => Except.error msg_unexpected_end_category
  | TokenTree.ident v :: rest =>
    if v = "dependencies" then Except.ok (ImportCategory.Dependency, consume_colon rest)
    else if v = "modules" then Except.ok (ImportCategory.Namespace, consume_colon rest)
    else Except.error (msg_expects v)
  | t :: _ => Except.error (msg_unrecognized t)

/-- `parse_namespace` of the source: consume the leading run of literal
tokens, inserting each one's normalized text into the set. -/
def parse_namespace (acc : List String) : List TokenTree → List String × List TokenTree
  | TokenTree.lit v :: rest =>
    parse_namespace (setInsert acc (namespace_literal_to_rough_namespace v)) rest
  | stream => (acc, stream)

/-- The `while` loop following `nuget:` in `parse_dependencies`: one
identifier segment is pushed onto the path; while the peeked token is a
punctuation period it is consumed and another segment is required. -/
def parse_nuget_segments (path : List String) :
    List TokenTree → Except String (List String × List TokenTree)
  | [] => Except.error msg_nuget_end
  | TokenTree.ident v :: TokenTree.punct c :: rest =>
    if c = '.' then parse_nuget_segments (path ++ [v]) rest
    else Except.ok (path ++ [v], TokenTree.punct c :: rest)
  | TokenTree.ident v :: rest => Except.ok (path ++ [v], rest)
  | _ :: _ => Except.error msg_nuget_item

/-- `parse_dependencies` of the source: consume the run of dependency items
(literal path, `os`, `nuget: a.b.c`), expanding each produced path and
collecting the results; stop without consuming at any other token. -/
def parse_dependencies (env : Env) (fuel : Nat) (acc : List (List String)) :
    List TokenTree → Except String (List (List String) × List TokenTree) :=
  match fuel with
  | 0 => fun _ => Except.error msg_fuel
  | fuel + 1 => fun stream =>
    match stream with
    | TokenTree.lit v :: rest =>
      match expand_paths env [trim_matches quote_char v] with
      | Except.error e => Except.error e
      | Except.ok ps => parse_dependencies env fuel (setExtend acc ps) rest
    | TokenTree.ident v :: rest =>
      if v = "os" then
        match env.windir with
        | none => Except.error msg_windir
        | some w =>
          match expand_paths env [w, env.system32, "winmetadata"] with
          | Except.error e => Except.error e
          | Except.ok ps => parse_dependencies env fuel (setExtend acc ps) rest
      else if v = "nuget" then
        match rest with
        | TokenTree.punct c :: rest2 =>
          if c = ':' then
            match parse_nuget_segments [env.home, ".nuget"] rest2 with
            | Except.error e => Except.error e
            | Except.ok (path, rest3) =>
              match expand_paths env path with
              | Except.error e => Except.error e
              | Except.ok ps => parse_dependencies env fuel (setExtend acc ps) rest3
          else Except.error msg_nuget_colon
        | _ => Except.error msg_nuget_colon
      else Except.ok (acc, TokenTree.ident v :: rest)
    | stream => Except.ok (acc, stream)

/-- The `loop` of `parse_import_stream`: while the state is not `Both`,
classify a section and run its parser, folding the category into the state;
once the state is `Both`, assert that no token remains. -/
def parse_import_stream_loop (env : Env) (fuel : Nat)
    (deps : List (List String)) (mods : List String) (state : ParseState)
    (stream : List TokenTree) : Except String (List (List String) × List String) :=
  match fuel with
  | 0 => Except.error msg_fuel
  | fuel + 1 =>
    if state = ParseState.Both then
      match stream with
      | [] => Except.ok (deps, mods)
      | t :: _ => Except.error (msg_trailing t)
    else
      match parse_category stream with
      | Except.error e => Except.error e
      | Except.ok (ImportCategory.Namespace, s1) =>
        match parse_namespace [] s1 with
        | (ns, s2) =>
          parse_import_stream_loop env fuel deps (setExtend mods ns)
            (ParseState.parsed_namespace state) s2
      | Except.ok (ImportCategory.Dependency, s1) =>
        match parse_dependencies env (s1.length + 1) [] s1 with
        | Except.error e => Except.error e
        | Except.ok (ds, s2) =>
          parse_import_stream_loop env fuel (setExtend deps ds) mods
            (ParseState.parsed_dependency state) s2

/-- `parse_import_stream` of the source: run the state-machine loop on the
whole token sequence, starting from `Neither` with empty sets. -/
def parse_import_stream (env : Env) (stream : List TokenTree) :
    Except String (List (List String) × List String) :=
  parse_import_stream_loop env (stream.length + 1) [] [] ParseState.Neither stream

/-- The `SYSTEM32` constant selected on 64-bit targets. -/
def SYSTEM32 : String := "System32"

/-- The value the `SYSTEM32` constant takes on 32-bit targets. -/
def SYSTEM32_32BIT : String := "SysNative"

/-- True when the head of the stream is a literal token (the tokens
`parse_namespace` consumes). -/
def head_is_lit : List TokenTree → Bool
  | TokenTree.lit _ :: _ => true
  | _ => false

/-- True when the head of the stream would keep a dependency section going:
a literal, the identifiers `os` or `nuget`, or a punctuation period (which
would extend a `nuget:` segment list that ended exactly at the boundary). -/
def head_continues_deps : List TokenTree → Bool
  | TokenTree.lit _ :: _ => true
  | TokenTree.ident v :: _ => v == "os" || v == "nuget"
  | TokenTree.punct c :: _ => c == '.'
  | _ => false

/-- True when the head of the stream is a punctuation colon. -/
def head_is_colon : List TokenTree → Bool
  | TokenTree.punct c :: _ => c == ':'
  | _ => false

/-- True when the head of the stream is a punctuation period (the token that
continues a `nuget:` segment list). -/
def head_is_period : List TokenTree → Bool
  | TokenTree.punct c :: _ => c == '.'
  | _ => false

/-- True for identifier tokens. -/
def is_ident_token : TokenTree → Bool
  | TokenTree.ident _ => true
  | _ => false

/-- The token form of a period-separated identifier list, as it appears
after `nuget:`. -/
def nugetTokens : List String → List TokenTree
  | [] => []
  | [s] => [TokenTree.ident s]
  | s :: ss => TokenTree.ident s :: TokenTree.punct '.' :: nugetTokens ss

/-- A sample machine for witnesses: `x.winmd` and `f.winmd` exist as plain
files, the directory `d` contains a matching file, a subdirectory and a
non-matching file, and both environment inputs are present. -/
def sample_env : Env where
  is_dir := fun p => p = ["d"] ∨ p = ["d", "sub"]
  is_file := fun p =>
    p = ["x.winmd"] ∨ p = ["f.winmd"] ∨ p = ["d", "a.winmd"] ∨ p = ["d", "b.txt"]
  read_dir := fun p =>
    if p = ["d"] then Except.ok [["d", "a.winmd"], ["d", "sub"], ["d", "b.txt"]]
    else Except.error "io error"
  windir := some "C:/Windows"
  home := "/home/user"
  system32 := SYSTEM32

/-- A sample machine with no `windir` variable and an unreadable
filesystem. -/
def bare_env : Env where
  is_dir := fun _ => false
  is_file := fun _ => false
  read_dir := fun _ => Except.error "io error"
  windir := none
  home := "/home/user"
  system32 := SYSTEM32

instance exceptDecidableEq {ε α : Type} [DecidableEq ε] [DecidableEq α] :
    DecidableEq (Except ε α) := fun x y =>
  match x, y with
  | Except.error a, Except.error b =>
    if h : a = b then Decidable.isTrue (by rw [h])
    else Decidable.isFalse (by intro he; injection he; exact h (by assumption))
  | Except.error _, Except.ok _ => Decidable.isFalse (by intro he; injection he)
  | Except.ok _, Except.error _ => Decidable.isFalse (by intro he; injection he)
  | Except.ok a, Except.ok b =>
    if h : a = b then Decidable.isTrue (by rw [h])
    else Decidable.isFalse (by intro he; injection he; exact h (by assumption))

/-- On characters other than quote and underscore, lowercasing produces a
character that is again neither quote nor underscore, and lowercasing is
idempotent. -/
theorem to_lowercase_char_fix (c : Char) (h1 : c ≠ quote_char) (h2 : c ≠ '_') :
    to_lowercase_char c ≠ quote_char ∧ to_lowercase_char c ≠ '_' ∧
      to_lowercase_char (to_lowercase_char c) = to_lowercase_char c := by
  unfold to_lowercase_char
  by_cases hc : 65 ≤ c.toNat ∧ c.toNat ≤ 90
  · rw [if_pos hc]
    obtain ⟨hl, hr⟩ := hc
    interval_cases h : c.toNat <;> simp_all <;> decide
  · rw [if_neg hc, if_neg hc]
    exact ⟨h1, h2, rfl⟩

/-- The character loop of the normalizer equals filtering out quotes and
underscores followed by lowercasing each remaining character. -/
theorem rough_chars_filter (l : List Char) :
    rough_chars l
      = (l.filter (fun c => c != quote_char && c != '_')).flatMap char_to_lowercase := by
  induction l with
  | nil => rfl
  | cons c cs ih =>
    by_cases h : c ≠ quote_char ∧ c ≠ '_'
    · obtain ⟨ha, hb⟩ := h
      simp [rough_chars, ha, hb, List.filter_cons, ih]
    · rw [rough_chars, if_neg h]
      rcases Decidable.not_and_iff_or_not.mp h with h1 | h1 <;>
        simp at h1 <;> simp [List.filter_cons, h1, ih]

/-- The character loop of the normalizer is idempotent. -/
theorem rough_chars_idem (l : List Char) :
    rough_chars (rough_chars l) = rough_chars l := by
  induction l with
  | nil => rfl
  | cons c cs ih =>
    by_cases h : c ≠ quote_char ∧ c ≠ '_'
    · have hf := to_lowercase_char_fix c h.1 h.2
      have e1 : rough_chars (c :: cs) = to_lowercase_char c :: rough_chars cs := by
        simp [rough_chars, h, char_to_lowercase]
      have e2 : rough_chars (to_lowercase_char c :: rough_chars cs)
          = to_lowercase_char (to_lowercase_char c) :: rough_chars (rough_chars cs) := by
        simp [rough_chars, hf.1, hf.2.1, char_to_lowercase]
      rw [e1, e2, hf.2.2, ih]
    · have e1 : rough_chars (c :: cs) = rough_chars cs := by
        rw [rough_chars, if_neg h]
      rw [e1, ih]

/-- Claim C3: the `ParseState` transition functions are exactly: on a
Namespace section, `Neither ↦ ParsedNamespace` and
`ParsedDependency ↦ Both`, all other states unchanged; on a Dependency
section, `Neither ↦ ParsedDependency` and `ParsedNamespace ↦ Both`, all
other states unchanged — in particular both are idempotent on their own
parsed state and on `Both`. -/
theorem c3_parse_state_transition_function :
    ParseState.parsed_namespace ParseState.Neither = ParseState.ParsedNamespace ∧
    ParseState.parsed_namespace ParseState.ParsedDependency = ParseState.Both ∧
    ParseState.parsed_namespace ParseState.ParsedNamespace = ParseState.ParsedNamespace ∧
    ParseState.parsed_namespace ParseState.Both = ParseState.Both ∧
    ParseState.parsed_dependency ParseState.Neither = ParseState.ParsedDependency ∧
    ParseState.parsed_dependency ParseState.ParsedNamespace = ParseState.Both ∧
    ParseState.parsed_dependency ParseState.ParsedDependency = ParseState.ParsedDependency ∧
    ParseState.parsed_dependency ParseState.Both = ParseState.Both :=
  ⟨rfl, rfl, rfl, rfl, rfl, rfl, rfl, rfl⟩

/-- Claim C4: the Namespace Normalizer iterates over the characters of the
input, drops every quote character and every underscore, and lowercases
every remaining character in order; and it is idempotent. -/
theorem c4_normalizer_characterization :
    (∀ s : String, namespace_literal_to_rough_namespace s
        = String.mk ((s.data.filter
            (fun c => c != quote_char && c != '_')).flatMap char_to_lowercase)) ∧
    (∀ s : String, namespace_literal_to_rough_namespace
        (namespace_literal_to_rough_namespace s)
      = namespace_literal_to_rough_namespace s) := by
  constructor
  · intro s
    rw [namespace_literal_to_rough_namespace, rough_chars_filter]
  · intro s
    rw [namespace_literal_to_rough_namespace, namespace_literal_to_rough_namespace]
    show String.mk (rough_chars (rough_chars s.data)) = _
    rw [rough_chars_idem]

/-- Claim C9: on the identifier `os`, the Dependency Section Parser fails
with the missing-variable message when `windir` is absent (for every
filesystem, i.e. before any filesystem access), and otherwise hands the
Path Expander exactly the path `windir / SYSTEM32 / winmetadata` and
continues with its result. -/
theorem c9_os_item (env : Env) (f : Nat) (acc : List (List String))
    (rest : List TokenTree) :
    (env.windir = none →
      parse_dependencies env (f + 1) acc (TokenTree.ident "os" :: rest)
        = Except.error msg_windir) ∧
    (∀ w, env.windir = some w →
      parse_dependencies env (f + 1) acc (TokenTree.ident "os" :: rest)
        = match expand_paths env [w, env.system32, "winmetadata"] with
          | Except.error e => Except.error e
          | Except.ok ps => parse_dependencies env f (setExtend acc ps) rest) := by
  constructor
  · intro h
    simp [parse_dependencies, h]
  · intro w h
    simp [parse_dependencies, h]

/-- Witness for C9 at a machine with no `windir` variable. -/
theorem c9_os_item_witness :
    bare_env.windir = none ∧
    parse_dependencies bare_env 1 [] [TokenTree.ident "os"] = Except.error msg_windir :=
  ⟨rfl, (c9_os_item bare_env 0 [] []).1 rfl⟩

/-- Claim C10: a section keyword followed by zero body items is a valid,
empty section that still transitions the parse state: the directive
`dependencies modules` (and likewise `modules dependencies`) succeeds and
returns two empty sets. -/
theorem c10_empty_sections (env : Env) :
    parse_import_stream env [TokenTree.ident "dependencies", TokenTree.ident "modules"]
      = Except.ok ([], []) ∧
    parse_import_stream env [TokenTree.ident "modules", TokenTree.ident "dependencies"]
      = Except.ok ([], []) :=
  ⟨rfl, rfl⟩

/-- `parse_namespace` returns its accumulator and the unchanged stream when
the head is not a literal token. -/
theorem parse_namespace_stop (acc : List String) (stream : List TokenTree)
    (h : head_is_lit stream = false) : parse_namespace acc stream = (acc, stream) := by
  cases stream with
  | nil => rfl
  | cons t rest =>
    cases t with
    | ident v => rfl
    | lit v => simp [head_is_lit] at h
    | punct c => rfl
    | group s => rfl

/-- Claim C7: in a namespace section the parser consumes exactly the
maximal leading run of literal tokens, inserting the normalization of each
token's literal text (quote characters still present) into the set, and
stops without consuming at the first non-literal token or end of input. -/
theorem c7_parse_namespace_run (vs : List String) (rest : List TokenTree)
    (acc : List String) (h : head_is_lit rest = false) :
    parse_namespace acc (vs.map TokenTree.lit ++ rest)
      = (setExtend acc (vs.map namespace_literal_to_rough_namespace), rest) := by
  induction vs generalizing acc with
  | nil => simpa [setExtend] using parse_namespace_stop acc rest h
  | cons v vs ih =>
    rw [List.map_cons, List.cons_append]
    rw [show parse_namespace acc
        (TokenTree.lit v :: (vs.map TokenTree.lit ++ rest))
        = parse_namespace (setInsert acc (namespace_literal_to_rough_namespace v))
          (vs.map TokenTree.lit ++ rest) from rfl]
    rw [ih]
    simp [setExtend]

/-- Witness for C7 on two string literals stopped by a keyword. -/
theorem c7_parse_namespace_run_witness :
    head_is_lit [TokenTree.ident "dependencies"] = false ∧
    parse_namespace [] (["\x22Foo_Bar\x22", "\x22Baz\x22"].map TokenTree.lit
        ++ [TokenTree.ident "dependencies"])
      = (setExtend [] (["\x22Foo_Bar\x22", "\x22Baz\x22"].map
          namespace_literal_to_rough_namespace), [TokenTree.ident "dependencies"]) :=
  ⟨rfl, c7_parse_namespace_run _ _ _ rfl⟩

/-- Membership in `setInsert`. -/
theorem mem_setInsert {α : Type} [DecidableEq α] (xs : List α) (a x : α) :
    x ∈ setInsert xs a ↔ x ∈ xs ∨ x = a := by
  unfold setInsert
  split
  · rename_i h
    constructor
    · exact Or.inl
    · rintro (hx | rfl)
      · exact hx
      · exact h
  · simp [List.mem_append]

/-- Membership in the conditional-insert fold used by the directory branch
of `expand_paths`. -/
theorem mem_filter_foldl {α : Type} [DecidableEq α] (C : α → Prop) [DecidablePred C]
    (entries : List α) (acc : List α) (x : α) :
    x ∈ entries.foldl (fun acc q => if C q then setInsert acc q else acc) acc ↔
      x ∈ acc ∨ (x ∈ entries ∧ C x) := by
  induction entries generalizing acc with
  | nil => simp
  | cons e es ih =>
    rw [List.foldl_cons]
    by_cases hC : C e
    · rw [if_pos hC, ih]
      by_cases hx : x = e <;> simp [hx, hC, mem_setInsert]
    · rw [if_neg hC, ih]
      by_cases hx : x = e <;> simp [hx, hC]

/-- Claim C2: the Path Expander returns, for a directory, exactly the
immediate entries that are regular files with the `winmd` extension (with a
directory-read failure aborting with an error and no partial result); for a
regular file with the matching extension, the singleton of that path; and
in every other case the `is not a file or directory` error naming the
path. -/
theorem c2_expand_paths_spec (env : Env) (p : List String) :
    (env.is_dir p = true → ∀ e, env.read_dir p = Except.error e →
      expand_paths env p = Except.error ("Could not read dependecy directory at path "
        ++ path_debug p ++ ": " ++ e)) ∧
    (env.is_dir p = true → ∀ entries, env.read_dir p = Except.ok entries →
      ∃ l, expand_paths env p = Except.ok l ∧
        ∀ x, x ∈ l ↔ x ∈ entries ∧ env.is_file x = true ∧ path_extension x = some "winmd") ∧
    (env.is_dir p = false → env.is_file p = true → path_extension p = some "winmd" →
      expand_paths env p = Except.ok [p]) ∧
    (env.is_dir p = false → ¬(env.is_file p = true ∧ path_extension p = some "winmd") →
      expand_paths env p
        = Except.error ("Dependency " ++ path_debug p ++ " is not a file or directory")) := by
  refine ⟨?_, ?_, ?_, ?_⟩
  · intro hd e hr
    simp [expand_paths, hd, hr]
  · intro hd entries hr
    refine ⟨entries.foldl (fun acc q =>
        if env.is_file q = true ∧ path_extension q = some "winmd" then setInsert acc q
        else acc) [], ?_, ?_⟩
    · simp [expand_paths, hd, hr]
    · intro x
      rw [mem_filter_foldl (fun q => env.is_file q = true ∧ path_extension q = some "winmd")]
      simp
  · intro hd hf he
    simp [expand_paths, hd, hf, he]
  · intro hd hnf
    simp only [expand_paths, hd, Bool.false_eq_true, if_false, if_neg hnf]

/-- Witness for C2: the sample directory keeps only its direct `winmd`
file entry, and a plain `winmd` file expands to itself. -/
theorem c2_expand_paths_spec_witness :
    (sample_env.is_dir ["d"] = true ∧ sample_env.read_dir ["d"]
        = Except.ok [["d", "a.winmd"], ["d", "sub"], ["d", "b.txt"]] ∧
      ∃ l, expand_paths sample_env ["d"] = Except.ok l ∧
        ∀ x, x ∈ l ↔ x ∈ [["d", "a.winmd"], ["d", "sub"], ["d", "b.txt"]]
          ∧ sample_env.is_file x = true ∧ path_extension x = some "winmd") ∧
    (sample_env.is_dir ["f.winmd"] = false ∧
      expand_paths sample_env ["f.winmd"] = Except.ok [["f.winmd"]]) :=
  ⟨⟨by decide, by decide,
      (c2_expand_paths_spec sample_env ["d"]).2.1 (by decide) _ (by decide)⟩,
    ⟨by decide, (c2_expand_paths_spec sample_env ["f.winmd"]).2.2.1
      (by decide) (by decide) (by decide)⟩⟩

/-- Claim C8: the Category Classifier fails with the unexpected-end error
at end of input, with the descriptive keyword error on an identifier other
than `dependencies`/`modules`, and with the unrecognized-token error on any
non-identifier token; consequently the directive
`dependencies: "x.winmd" extra_token` with no `modules` section fails with
the grammar error citing `extra_token`, the state never having reached
`Both`. -/
theorem c8_category_classifier_errors :
    (parse_category [] = Except.error msg_unexpected_end_category) ∧
    (∀ v rest, v ≠ "dependencies" → v ≠ "modules" →
      parse_category (TokenTree.ident v :: rest) = Except.error (msg_expects v)) ∧
    (∀ t rest, is_ident_token t = false →
      parse_category (t :: rest) = Except.error (msg_unrecognized t)) ∧
    (∀ env ps, expand_paths env ["x.winmd"] = Except.ok ps →
      parse_import_stream env [TokenTree.ident "dependencies", TokenTree.punct ':',
          TokenTree.lit "\x22x.winmd\x22", TokenTree.ident "extra_token"]
        = Except.error (msg_expects "extra_token")) := by
  refine ⟨rfl, ?_, ?_, ?_⟩
  · intro v rest h1 h2
    simp [parse_category, h1, h2]
  · intro t rest h
    cases t with
    | ident v => simp [is_ident_token] at h
    | lit v => rfl
    | punct c => rfl
    | group s => rfl
  · intro env ps h
    have e1 : trim_matches quote_char "\x22x.winmd\x22" = "x.winmd" := by decide
    simp [parse_import_stream, parse_import_stream_loop, parse_category, consume_colon,
      parse_dependencies, e1, h, ParseState.parsed_dependency]

/-- Witness for C8 on a wrong keyword, a punctuation token and the
`extra_token` scenario at the sample machine. -/
theorem c8_category_classifier_errors_witness :
    parse_category [TokenTree.ident "bogus"] = Except.error (msg_expects "bogus") ∧
    parse_category [TokenTree.punct ';'] = Except.error (msg_unrecognized (TokenTree.punct ';')) ∧
    (expand_paths sample_env ["x.winmd"] = Except.ok [["x.winmd"]] ∧
      parse_import_stream sample_env [TokenTree.ident "dependencies", TokenTree.punct ':',
          TokenTree.lit "\x22x.winmd\x22", TokenTree.ident "extra_token"]
        = Except.error (msg_expects "extra_token")) :=
  ⟨c8_category_classifier_errors.2.1 "bogus" [] (by decide) (by decide),
    c8_category_classifier_errors.2.2.1 (TokenTree.punct ';') [] rfl,
    by decide,
    c8_category_classifier_errors.2.2.2 sample_env [["x.winmd"]] (by decide)⟩

/-- A successful `nuget:` segment parse consumes at least one token and
leaves a suffix of its input. -/
theorem parse_nuget_segments_consumes (path : List String) (l : List TokenTree) :
    ∀ p l', parse_nuget_segments path l = Except.ok (p, l') →
      l'.length < l.length ∧ l' <:+ l := by
  induction path, l using parse_nuget_segments.induct with
  | case1 path =>
    intro p l' h
    simp [parse_nuget_segments] at h
  | case2 path v rest ih =>
    intro p l' h
    rw [parse_nuget_segments, if_pos rfl] at h
    obtain ⟨hlen, hsuf⟩ := ih p l' h
    refine ⟨by simp; omega, hsuf.trans ((List.suffix_cons _ _).trans (List.suffix_cons _ _))⟩
  | case3 path v c rest hc =>
    intro p l' h
    rw [parse_nuget_segments, if_neg hc] at h
    injection h with h2
    cases h2
    exact ⟨by simp, List.suffix_cons _ _⟩
  | case4 path v rest hshape =>
    intro p l' h
    rw [parse_nuget_segments] at h
    · injection h with h2
      cases h2
      exact ⟨by simp, List.suffix_cons _ _⟩
    · exact hshape
  | case5 path head tail h1 h2 =>
    intro p l' h
    cases head with
    | ident v => exact absurd rfl (h2 v)
    | lit v => simp [parse_nuget_segments] at h
    | punct c => simp [parse_nuget_segments] at h
    | group g => simp [parse_nuget_segments] at h

/-- A successful `nuget:` segment parse is unchanged by appending tokens
after its remainder, provided a remainder that ended at end of input is not
followed by a period (which would extend the segment list). -/
theorem parse_nuget_segments_append (path : List String) (l : List TokenTree) :
    ∀ p l' rest, parse_nuget_segments path l = Except.ok (p, l') →
      (l' = [] → head_is_period rest = false) →
      parse_nuget_segments path (l ++ rest) = Except.ok (p, l' ++ rest) := by
  induction path, l using parse_nuget_segments.induct with
  | case1 path =>
    intro p l' rest h hr
    simp [parse_nuget_segments] at h
  | case2 path v rest0 ih =>
    intro p l' rest h hr
    rw [parse_nuget_segments, if_pos rfl] at h
    have hx := ih p l' rest h hr
    rw [List.cons_append, List.cons_append, parse_nuget_segments, if_pos rfl]
    exact hx
  | case3 path v c rest0 hc =>
    intro p l' rest h hr
    rw [parse_nuget_segments, if_neg hc] at h
    injection h with h2
    cases h2
    rw [List.cons_append, List.cons_append, parse_nuget_segments, if_neg hc]
  | case4 path v rest0 hshape =>
    intro p l' rest h hr
    rw [parse_nuget_segments] at h
    · injection h with h2
      cases h2
      cases rest0 with
      | nil =>
        have hp := hr rfl
        cases rest with
        | nil => simp [parse_nuget_segments]
        | cons t rts =>
          cases t with
          | punct c =>
            have hc : ¬(c = '.') := by simpa [head_is_period] using hp
            simp [parse_nuget_segments, hc]
          | ident v2 => simp [parse_nuget_segments]
          | lit v2 => simp [parse_nuget_segments]
          | group g => simp [parse_nuget_segments]
      | cons t rts =>
        cases t with
        | punct c => exact absurd rfl (hshape c rts)
        | ident v2 => simp [parse_nuget_segments]
        | lit v2 => simp [parse_nuget_segments]
        | group g => simp [parse_nuget_segments]
    · exact hshape
  | case5 path head tail h1 h2 =>
    intro p l' rest h hr
    cases head with
    | ident v => exact absurd rfl (h2 v)
    | lit v => simp [parse_nuget_segments] at h
    | punct c => simp [parse_nuget_segments] at h
    | group g => simp [parse_nuget_segments] at h

/-- On the token form of a non-empty period-separated identifier list the
segment parser appends exactly those identifiers to the path, provided the
following token is not a period. -/
theorem parse_nuget_segments_run (segs : List String) :
    ∀ (path : List String) (rest : List TokenTree),
      segs ≠ [] → head_is_period rest = false →
      parse_nuget_segments path (nugetTokens segs ++ rest)
        = Except.ok (path ++ segs, rest) := by
  induction segs with
  | nil =>
    intro path rest h hp
    cases h rfl
  | cons s ss ih =>
    intro path rest hne hp
    cases ss with
    | nil =>
      cases rest with
      | nil => simp [nugetTokens, parse_nuget_segments]
      | cons t rts =>
        cases t with
        | punct c =>
          have hc : ¬(c = '.') := by simpa [head_is_period] using hp
          simp [nugetTokens, parse_nuget_segments, hc]
        | ident v => simp [nugetTokens, parse_nuget_segments]
        | lit v => simp [nugetTokens, parse_nuget_segments]
        | group g => simp [nugetTokens, parse_nuget_segments]
    | cons s2 ss2 =>
      have e : nugetTokens (s :: s2 :: ss2)
          = TokenTree.ident s :: TokenTree.punct '.' :: nugetTokens (s2 :: ss2) := rfl
      rw [e, List.cons_append, List.cons_append, parse_nuget_segments, if_pos rfl,
        ih (path ++ [s]) rest (by simp) hp]
      simp

/-- Consuming a non-empty segment list followed by a period leaves the
segment parser at the next segment position, with the segments pushed onto
the path. -/
theorem parse_nuget_segments_dot (segs : List String) :
    ∀ (path : List String) (l : List TokenTree), segs ≠ [] →
      parse_nuget_segments path (nugetTokens segs ++ TokenTree.punct '.' :: l)
        = parse_nuget_segments (path ++ segs) l := by
  induction segs with
  | nil =>
    intro path l h
    cases h rfl
  | cons s ss ih =>
    intro path l hne
    cases ss with
    | nil =>
      show parse_nuget_segments path (TokenTree.ident s :: TokenTree.punct '.' :: l) = _
      rw [parse_nuget_segments, if_pos rfl]
    | cons s2 ss2 =>
      show parse_nuget_segments path (TokenTree.ident s :: TokenTree.punct '.'
          :: (nugetTokens (s2 :: ss2) ++ TokenTree.punct '.' :: l)) = _
      rw [parse_nuget_segments, if_pos rfl, ih (path ++ [s]) l (by simp)]
      congr 1
      simp

/-- Claim C6: on the identifier `nuget` the Dependency Section Parser fails
unless the immediately following token is a punctuation colon; it then
consumes a non-empty period-separated identifier list, failing when input
ends or a non-identifier stands where a segment is expected — in the first
segment position or after any consumed period; and the path handed to the
Path Expander is the hidden package-cache root `HOME/.nuget` with each
identifier appended as a nested component. -/
theorem c6_nuget_item (env : Env) (f : Nat) (acc : List (List String)) :
    (∀ rest, head_is_colon rest = false →
      parse_dependencies env (f + 1) acc (TokenTree.ident "nuget" :: rest)
        = Except.error msg_nuget_colon) ∧
    (parse_dependencies env (f + 1) acc [TokenTree.ident "nuget", TokenTree.punct ':']
        = Except.error msg_nuget_end) ∧
    (∀ t rest, is_ident_token t = false →
      parse_dependencies env (f + 1) acc
          (TokenTree.ident "nuget" :: TokenTree.punct ':' :: t :: rest)
        = Except.error msg_nuget_item) ∧
    (∀ segs rest, segs ≠ [] → head_is_period rest = false →
      parse_dependencies env (f + 1) acc
          (TokenTree.ident "nuget" :: TokenTree.punct ':' :: (nugetTokens segs ++ rest))
        = match expand_paths env (env.home :: ".nuget" :: segs) with
          | Except.error e => Except.error e
          | Except.ok ps => parse_dependencies env f (setExtend acc ps) rest) ∧
    (∀ segs t rest, segs ≠ [] → is_ident_token t = false →
      parse_dependencies env (f + 1) acc
          (TokenTree.ident "nuget" :: TokenTree.punct ':'
            :: (nugetTokens segs ++ TokenTree.punct '.' :: t :: rest))
        = Except.error msg_nuget_item) ∧
    (∀ segs, segs ≠ [] →
      parse_dependencies env (f + 1) acc
          (TokenTree.ident "nuget" :: TokenTree.punct ':'
            :: (nugetTokens segs ++ [TokenTree.punct '.']))
        = Except.error msg_nuget_end) := by
  refine ⟨?_, ?_, ?_, ?_, ?_, ?_⟩
  · intro rest h
    cases rest with
    | nil => simp [parse_dependencies]
    | cons t rts =>
      cases t with
      | punct c =>
        have hc : ¬(c = ':') := by simpa [head_is_colon] using h
        simp [parse_dependencies, hc]
      | ident v => simp [parse_dependencies]
      | lit v => simp [parse_dependencies]
      | group g => simp [parse_dependencies]
  · simp [parse_dependencies, parse_nuget_segments]
  · intro t rest h
    cases t with
    | ident v => simp [is_ident_token] at h
    | lit v => simp [parse_dependencies, parse_nuget_segments]
    | punct c => simp [parse_dependencies, parse_nuget_segments]
    | group g => simp [parse_dependencies, parse_nuget_segments]
  · intro segs rest hne hp
    have hrun := parse_nuget_segments_run segs [env.home, ".nuget"] rest hne hp
    simp [parse_dependencies, hrun]
  · intro segs t rest hne ht
    have hdot := parse_nuget_segments_dot segs [env.home, ".nuget"]
      (t :: rest) hne
    have herr : parse_nuget_segments (env.home :: ".nuget" :: segs) (t :: rest)
        = Except.error msg_nuget_item := by
      cases t with
      | ident v => simp [is_ident_token] at ht
      | lit v => simp [parse_nuget_segments]
      | punct c => simp [parse_nuget_segments]
      | group g => simp [parse_nuget_segments]
    simp [parse_dependencies, hdot, herr]
  · intro segs hne
    have hdot := parse_nuget_segments_dot segs [env.home, ".nuget"] [] hne
    rw [show nugetTokens segs ++ [TokenTree.punct '.']
        = nugetTokens segs ++ TokenTree.punct '.' :: [] from rfl]
    simp [parse_dependencies, hdot, parse_nuget_segments]

/-- Witness for C6: a missing colon, a concrete two-segment package, a
punctuation token after a consumed period, and input ending after a
consumed period. -/
theorem c6_nuget_item_witness :
    head_is_colon [TokenTree.ident "x"] = false ∧
    parse_dependencies bare_env 1 [] [TokenTree.ident "nuget", TokenTree.ident "x"]
      = Except.error msg_nuget_colon ∧
    parse_dependencies bare_env 1 []
        (TokenTree.ident "nuget" :: TokenTree.punct ':' :: nugetTokens ["Microsoft", "Windows"])
      = Except.error ("Dependency "
          ++ path_debug ["/home/user", ".nuget", "Microsoft", "Windows"]
          ++ " is not a file or directory") ∧
    parse_dependencies bare_env 1 [] [TokenTree.ident "nuget", TokenTree.punct ':',
        TokenTree.ident "a", TokenTree.punct '.', TokenTree.punct ';']
      = Except.error msg_nuget_item ∧
    parse_dependencies bare_env 1 [] [TokenTree.ident "nuget", TokenTree.punct ':',
        TokenTree.ident "a", TokenTree.punct '.']
      = Except.error msg_nuget_end := by
  refine ⟨rfl, (c6_nuget_item bare_env 0 []).1 _ rfl, ?_, ?_, ?_⟩
  · have h := (c6_nuget_item bare_env 0 []).2.2.2.1 ["Microsoft", "Windows"] [] (by simp) rfl
    rw [show (nugetTokens ["Microsoft", "Windows"])
        = nugetTokens ["Microsoft", "Windows"] ++ [] from (List.append_nil _).symm]
    rw [h]
    decide
  · exact (c6_nuget_item bare_env 0 []).2.2.2.2.1 ["a"] (TokenTree.punct ';') []
      (by simp) rfl
  · exact (c6_nuget_item bare_env 0 []).2.2.2.2.2 ["a"] (by simp)

/-- The optional-colon step leaves a suffix of its input. -/
theorem consume_colon_suffix (l : List TokenTree) : consume_colon l <:+ l := by
  cases l with
  | nil => exact List.suffix_rfl
  | cons t rest =>
    cases t with
    | punct c =>
      rw [consume_colon]
      split
      · exact List.suffix_cons _ _
      · exact List.suffix_rfl
    | ident v => exact List.suffix_rfl
    | lit v => exact List.suffix_rfl
    | group s => exact List.suffix_rfl

/-- A successful classification consumed a `dependencies` or `modules`
identifier at the head of the stream, matching the returned category. -/
theorem parse_category_shape (s : List TokenTree) (c : ImportCategory)
    (s1 : List TokenTree) (h : parse_category s = Except.ok (c, s1)) :
    ∃ rest, s1 <:+ rest ∧
      ((c = ImportCategory.Dependency ∧ s = TokenTree.ident "dependencies" :: rest) ∨
       (c = ImportCategory.Namespace ∧ s = TokenTree.ident "modules" :: rest)) := by
  cases s with
  | nil => simp [parse_category] at h
  | cons t rest =>
    cases t with
    | ident v =>
      by_cases h1 : v = "dependencies"
      · subst h1
        refine ⟨rest, ?_, ?_⟩
        · simp [parse_category] at h
          rw [← h.2]
          exact consume_colon_suffix rest
        · simp [parse_category] at h
          exact Or.inl ⟨h.1.symm, rfl⟩
      · by_cases h2 : v = "modules"
        · subst h2
          refine ⟨rest, ?_, ?_⟩
          · simp [parse_category] at h
            rw [← h.2]
            exact consume_colon_suffix rest
          · simp [parse_category] at h
            exact Or.inr ⟨h.1.symm, rfl⟩
        · simp [parse_category, h1, h2] at h
    | lit v => simp [parse_category] at h
    | punct c2 => simp [parse_category] at h
    | group g => simp [parse_category] at h

/-- The namespace section parser leaves a suffix of its input. -/
theorem parse_namespace_suffix (l : List TokenTree) :
    ∀ acc, (parse_namespace acc l).2 <:+ l := by
  induction l with
  | nil => intro acc; exact List.suffix_rfl
  | cons t rest ih =>
    intro acc
    cases t with
    | lit v =>
      exact (ih _).trans (List.suffix_cons _ _)
    | ident v => exact List.suffix_rfl
    | punct c => exact List.suffix_rfl
    | group s => exact List.suffix_rfl

/-- The dependency section parser leaves a suffix of its input. -/
theorem parse_dependencies_suffix :
    ∀ (f : Nat) (env : Env) (acc r : List (List String)) (l l' : List TokenTree),
      parse_dependencies env f acc l = Except.ok (r, l') → l' <:+ l := by
  intro f
  induction f with
  | zero =>
    intro env acc r l l' h
    simp [parse_dependencies] at h
  | succ g ih =>
    intro env acc r l l' h
    cases l with
    | nil =>
      simp [parse_dependencies] at h
      rw [← h.2]
    | cons t rest =>
      cases t with
      | lit v =>
        cases hexp : expand_paths env [trim_matches quote_char v] with
        | error e => simp [parse_dependencies, hexp] at h
        | ok ps =>
          simp only [parse_dependencies, hexp] at h
          exact (ih env _ r rest l' h).trans (List.suffix_cons _ _)
      | ident v =>
        by_cases hos : v = "os"
        · subst hos
          cases hw : env.windir with
          | none => simp [parse_dependencies, hw] at h
          | some w =>
            cases hexp : expand_paths env [w, env.system32, "winmetadata"] with
            | error e => simp [parse_dependencies, hw, hexp] at h
            | ok ps =>
              simp only [parse_dependencies, hw, if_pos rfl] at h
              rw [hexp] at h
              exact (ih env _ r rest l' h).trans (List.suffix_cons _ _)
        · by_cases hng : v = "nuget"
          · subst hng
            cases rest with
            | nil => simp [parse_dependencies, hos] at h
            | cons t2 rest2 =>
              cases t2 with
              | punct c =>
                by_cases hc : c = ':'
                · subst hc
                  cases hseg : parse_nuget_segments [env.home, ".nuget"] rest2 with
                  | error e => simp [parse_dependencies, hos, hseg] at h
                  | ok pr =>
                    obtain ⟨path, rest3⟩ := pr
                    cases hexp : expand_paths env path with
                    | error e => simp [parse_dependencies, hos, hseg, hexp] at h
                    | ok ps =>
                      simp only [parse_dependencies, hos, hseg, hexp, if_pos rfl,
                        if_neg (by decide : ¬("nuget" = "os")), reduceIte] at h
                      have h3 := ih env _ r rest3 l' h
                      have h4 := (parse_nuget_segments_consumes _ _ _ _ hseg).2
                      exact ((h3.trans h4).trans (List.suffix_cons _ _)).trans
                        (List.suffix_cons _ _)
                · simp [parse_dependencies, hos, hc] at h
              | ident v2 => simp [parse_dependencies, hos] at h
              | lit v2 => simp [parse_dependencies, hos] at h
              | group g2 => simp [parse_dependencies, hos] at h
          · simp [parse_dependencies, hos, hng] at h
            rw [← h.2]
      | punct c =>
        simp [parse_dependencies] at h
        rw [← h.2]
      | group s =>
        simp [parse_dependencies] at h
        rw [← h.2]

/-- Unfolding equation of the compiler loop at fuel zero. -/
theorem parse_import_stream_loop_zero (env : Env) (d : List (List String))
    (m : List String) (st : ParseState) (s : List TokenTree) :
    parse_import_stream_loop env 0 d m st s = Except.error msg_fuel := rfl

/-- One-step unfolding equation of the compiler loop. -/
theorem parse_import_stream_loop_succ (env : Env) (f : Nat) (d : List (List String))
    (m : List String) (st : ParseState) (s : List TokenTree) :
    parse_import_stream_loop env (f + 1) d m st s =
      if st = ParseState.Both then
        match s with
        | [] => Except.ok (d, m)
        | t :: _ => Except.error (msg_trailing t)
      else
        match parse_category s with
        | Except.error e => Except.error e
        | Except.ok (ImportCategory.Namespace, s1) =>
          match parse_namespace [] s1 with
          | (ns, s2) =>
            parse_import_stream_loop env f d (setExtend m ns)
              (ParseState.parsed_namespace st) s2
        | Except.ok (ImportCategory.Dependency, s1) =>
          match parse_dependencies env (s1.length + 1) [] s1 with
          | Except.error e => Except.error e
          | Except.ok (ds, s2) =>
            parse_import_stream_loop env f (setExtend d ds) m
              (ParseState.parsed_dependency st) s2 := rfl

/-- States reachable by `parsed_namespace` that record a dependency section
came from states that already recorded one. -/
theorem parse_state_range_namespace (st : ParseState)
    (h : ParseState.parsed_namespace st = ParseState.ParsedDependency ∨
      ParseState.parsed_namespace st = ParseState.Both) :
    st = ParseState.ParsedDependency ∨ st = ParseState.Both := by
  cases st <;> simp_all [ParseState.parsed_namespace]

/-- States reachable by `parsed_dependency` that record a namespace section
came from states that already recorded one. -/
theorem parse_state_range_dependency (st : ParseState)
    (h : ParseState.parsed_dependency st = ParseState.ParsedNamespace ∨
      ParseState.parsed_dependency st = ParseState.Both) :
    st = ParseState.ParsedNamespace ∨ st = ParseState.Both := by
  cases st <;> simp_all [ParseState.parsed_dependency]

/-- If the compiler loop returns normally, then each category was either
already recorded in the entry state or its keyword occurs in the remaining
tokens. -/
theorem loop_ok_requires_both :
    ∀ (f : Nat) (env : Env) (d : List (List String)) (m : List String) (st : ParseState)
      (s : List TokenTree) (r : List (List String) × List String),
      parse_import_stream_loop env f d m st s = Except.ok r →
      ((st = ParseState.ParsedDependency ∨ st = ParseState.Both)
          ∨ TokenTree.ident "dependencies" ∈ s) ∧
      ((st = ParseState.ParsedNamespace ∨ st = ParseState.Both)
          ∨ TokenTree.ident "modules" ∈ s) := by
  intro f
  induction f with
  | zero =>
    intro env d m st s r h
    rw [parse_import_stream_loop_zero] at h
    simp at h
  | succ g ih =>
    intro env d m st s r h
    by_cases hst : st = ParseState.Both
    · exact ⟨Or.inl (Or.inr hst), Or.inl (Or.inr hst)⟩
    · rw [parse_import_stream_loop_succ, if_neg hst] at h
      cases hc : parse_category s with
      | error e => simp [hc] at h
      | ok pr =>
        obtain ⟨cat, s1⟩ := pr
        simp only [hc] at h
        obtain ⟨rest, hsuf, hshape⟩ := parse_category_shape s cat s1 hc
        cases cat with
        | Namespace =>
          have ihh := ih env d (setExtend m (parse_namespace [] s1).1)
            (ParseState.parsed_namespace st) (parse_namespace [] s1).2 r h
          rcases hshape with ⟨hcat, _⟩ | ⟨_, hs⟩
          · exact absurd hcat (by simp)
          · subst hs
            constructor
            · rcases ihh.1 with hst2 | hmem
              · exact Or.inl (parse_state_range_namespace st hst2)
              · have hs2 : (parse_namespace [] s1).2 <:+ s1 := parse_namespace_suffix s1 []
                exact Or.inr (List.mem_cons_of_mem _ ((hs2.trans hsuf).subset hmem))
            · exact Or.inr (List.mem_cons_self _ _)
        | Dependency =>
          cases hpd : parse_dependencies env (s1.length + 1) [] s1 with
          | error e => simp only [hpd] at h; simp at h
          | ok pr2 =>
            obtain ⟨ds, s2⟩ := pr2
            simp only [hpd] at h
            have ihh := ih env (setExtend d ds) m (ParseState.parsed_dependency st) s2 r h
            rcases hshape with ⟨_, hs⟩ | ⟨hcat, _⟩
            · subst hs
              constructor
              · exact Or.inr (List.mem_cons_self _ _)
              · rcases ihh.2 with hst2 | hmem
                · exact Or.inl (parse_state_range_dependency st hst2)
                · have hs2 : s2 <:+ s1 :=
                    parse_dependencies_suffix _ env _ ds s1 s2 hpd
                  exact Or.inr (List.mem_cons_of_mem _ ((hs2.trans hsuf).subset hmem))
            · exact absurd hcat (by simp)

/-- Claim C1: the Directive Compiler returns normally only after at least
one section of each category has been seen (each classification consumes
the corresponding keyword, so both keywords occur in the input) and the
token sequence is exhausted; in state `Both` with a token remaining it
fails with the trailing-input error citing that token's text. -/
theorem c1_directive_compiler_termination :
    (∀ (env : Env) (stream : List TokenTree) (r : List (List String) × List String),
      parse_import_stream env stream = Except.ok r →
      TokenTree.ident "dependencies" ∈ stream ∧ TokenTree.ident "modules" ∈ stream) ∧
    (∀ (env : Env) (f : Nat) (deps : List (List String)) (mods : List String)
      (t : TokenTree) (rest : List TokenTree),
      parse_import_stream_loop env (f + 1) deps mods ParseState.Both (t :: rest)
        = Except.error (msg_trailing t)) := by
  constructor
  · intro env stream r h
    have h2 := loop_ok_requires_both (stream.length + 1) env [] []
      ParseState.Neither stream r h
    constructor
    · rcases h2.1 with (h3 | h3) | h3
      · exact absurd h3 (by simp)
      · exact absurd h3 (by simp)
      · exact h3
    · rcases h2.2 with (h3 | h3) | h3
      · exact absurd h3 (by simp)
      · exact absurd h3 (by simp)
      · exact h3
  · intro env f deps mods t rest
    rfl

/-- Witness for C1 at a concrete accepted directive. -/
theorem c1_directive_compiler_termination_witness :
    parse_import_stream sample_env
      [TokenTree.ident "dependencies", TokenTree.ident "modules"] = Except.ok ([], []) ∧
    (TokenTree.ident "dependencies"
        ∈ [TokenTree.ident "dependencies", TokenTree.ident "modules"] ∧
      TokenTree.ident "modules"
        ∈ [TokenTree.ident "dependencies", TokenTree.ident "modules"]) :=
  ⟨rfl, c1_directive_compiler_termination.1 sample_env _ ([], []) rfl⟩

/-- A namespace body that parses to completion parses the same way with
tokens appended after it, provided the first appended token is not a
literal. -/
theorem parse_namespace_append (b1 : List TokenTree) :
    ∀ (acc ns : List String) (rest : List TokenTree),
      parse_namespace acc b1 = (ns, []) → head_is_lit rest = false →
      parse_namespace acc (b1 ++ rest) = (ns, rest) := by
  induction b1 with
  | nil =>
    intro acc ns rest h hr
    have hacc : acc = ns := by simpa [parse_namespace] using h
    subst hacc
    rw [List.nil_append]
    exact parse_namespace_stop acc rest hr
  | cons t b1x ih =>
    intro acc ns rest h hr
    cases t with
    | lit v =>
      rw [List.cons_append]
      rw [show parse_namespace acc (TokenTree.lit v :: (b1x ++ rest))
          = parse_namespace (setInsert acc (namespace_literal_to_rough_namespace v))
            (b1x ++ rest) from rfl]
      exact ih _ ns rest h hr
    | ident v =>
      rw [parse_namespace_stop acc (TokenTree.ident v :: b1x) rfl] at h
      simp at h
    | punct c =>
      rw [parse_namespace_stop acc (TokenTree.punct c :: b1x) rfl] at h
      simp at h
    | group g =>
      rw [parse_namespace_stop acc (TokenTree.group g :: b1x) rfl] at h
      simp at h

/-- A dependency body that parses to completion parses the same way with
tokens appended after it, provided the first appended token does not
continue a dependency section, given enough fuel. -/
theorem parse_dependencies_append :
    ∀ (f : Nat) (env : Env) (acc ds : List (List String)) (b rest : List TokenTree)
      (f2 : Nat),
      parse_dependencies env f acc b = Except.ok (ds, []) →
      head_continues_deps rest = false →
      b.length + rest.length < f2 →
      parse_dependencies env f2 acc (b ++ rest) = Except.ok (ds, rest) := by
  intro f
  induction f with
  | zero =>
    intro env acc ds b rest f2 h hr hf2
    simp [parse_dependencies] at h
  | succ g ih =>
    intro env acc ds b rest f2 h hr hf2
    obtain ⟨f2g, rfl⟩ : ∃ k, f2 = k + 1 := ⟨f2 - 1, by omega⟩
    cases b with
    | nil =>
      have hds : acc = ds := by simpa [parse_dependencies] using h
      subst hds
      rw [List.nil_append]
      cases rest with
      | nil => simp [parse_dependencies]
      | cons t rts =>
        cases t with
        | lit v => simp [head_continues_deps] at hr
        | ident v =>
          simp [head_continues_deps] at hr
          simp [parse_dependencies, hr.1, hr.2]
        | punct c => simp [parse_dependencies]
        | group s => simp [parse_dependencies]
    | cons t bx =>
      cases t with
      | lit v =>
        cases hexp : expand_paths env [trim_matches quote_char v] with
        | error e => simp [parse_dependencies, hexp] at h
        | ok ps =>
          simp only [parse_dependencies, hexp] at h
          rw [List.cons_append]
          simp only [parse_dependencies, hexp]
          refine ih env _ ds bx rest f2g h hr ?_
          simp only [List.length_cons] at hf2
          omega
      | ident v =>
        by_cases hos : v = "os"
        · subst hos
          cases hw : env.windir with
          | none => simp [parse_dependencies, hw] at h
          | some w =>
            cases hexp : expand_paths env [w, env.system32, "winmetadata"] with
            | error e => simp [parse_dependencies, hw, hexp] at h
            | ok ps =>
              simp only [parse_dependencies, hw, if_pos rfl] at h
              rw [hexp] at h
              rw [List.cons_append]
              simp only [parse_dependencies, hw, if_pos rfl]
              rw [hexp]
              refine ih env _ ds bx rest f2g h hr ?_
              simp only [List.length_cons] at hf2
              omega
        · by_cases hng : v = "nuget"
          · subst hng
            cases bx with
            | nil => simp [parse_dependencies, hos] at h
            | cons t2 b2 =>
              cases t2 with
              | punct c =>
                by_cases hc : c = ':'
                · subst hc
                  cases hseg : parse_nuget_segments [env.home, ".nuget"] b2 with
                  | error e => simp [parse_dependencies, hos, hseg] at h
                  | ok pr =>
                    obtain ⟨path, rest3⟩ := pr
                    cases hexp : expand_paths env path with
                    | error e => simp [parse_dependencies, hos, hseg, hexp] at h
                    | ok ps =>
                      simp only [parse_dependencies, hos, hseg, hexp, if_pos rfl,
                        if_neg (by decide : ¬("nuget" = "os")), reduceIte] at h
                      have hr3 : rest3 = [] → head_is_period rest = false := by
                        intro _
                        cases rest with
                        | nil => rfl
                        | cons t rts =>
                          cases t with
                          | punct c2 =>
                            simp [head_continues_deps] at hr
                            simp [head_is_period, hr]
                          | ident v2 => rfl
                          | lit v2 => rfl
                          | group g2 => rfl
                      have hsegapp := parse_nuget_segments_append [env.home, ".nuget"]
                        b2 path rest3 rest hseg hr3
                      rw [List.cons_append, List.cons_append]
                      simp only [parse_dependencies, hsegapp, if_pos rfl,
                        if_neg (by decide : ¬("nuget" = "os")), reduceIte]
                      rw [hexp]
                      have hlen := (parse_nuget_segments_consumes _ _ _ _ hseg).1
                      refine ih env _ ds rest3 rest f2g h hr ?_
                      simp only [List.length_cons] at hf2
                      omega
                · simp [parse_dependencies, hos, hc] at h
              | ident v2 => simp [parse_dependencies, hos] at h
              | lit v2 => simp [parse_dependencies, hos] at h
              | group g2 => simp [parse_dependencies, hos] at h
          · simp [parse_dependencies, hos, hng] at h
      | punct c => simp [parse_dependencies] at h
      | group s => simp [parse_dependencies] at h

/-- A normal return of the compiler loop is preserved by extra fuel. -/
theorem loop_fuel_mono :
    ∀ (f f2 : Nat) (env : Env) (d : List (List String)) (m : List String)
      (st : ParseState) (s : List TokenTree) (r : List (List String) × List String),
      parse_import_stream_loop env f d m st s = Except.ok r → f ≤ f2 →
      parse_import_stream_loop env f2 d m st s = Except.ok r := by
  intro f
  induction f with
  | zero =>
    intro f2 env d m st s r h hle
    rw [parse_import_stream_loop_zero] at h
    simp at h
  | succ g ih =>
    intro f2 env d m st s r h hle
    obtain ⟨g2, rfl⟩ : ∃ k, f2 = k + 1 := ⟨f2 - 1, by omega⟩
    rw [parse_import_stream_loop_succ] at h
    rw [parse_import_stream_loop_succ]
    by_cases hst : st = ParseState.Both
    · rw [if_pos hst] at h ⊢
      exact h
    · rw [if_neg hst] at h ⊢
      cases hc : parse_category s with
      | error e =>
        simp only [hc] at h ⊢
        exact h
      | ok pr =>
        obtain ⟨cat, s1⟩ := pr
        simp only [hc] at h ⊢
        cases cat with
        | Namespace =>
          exact ih g2 env d (setExtend m (parse_namespace [] s1).1) _
            (parse_namespace [] s1).2 r h (by omega)
        | Dependency =>
          cases hpd : parse_dependencies env (s1.length + 1) [] s1 with
          | error e =>
            simp only [hpd] at h ⊢
            exact h
          | ok pr2 =>
            obtain ⟨ds, s2⟩ := pr2
            simp only [hpd] at h ⊢
            exact ih g2 env (setExtend d ds) m _ s2 r h (by omega)

/-- Claim C5: for every pair of section bodies (a namespace body that the
Namespace Section Parser consumes completely and a dependency body that the
Dependency Section Parser consumes completely) and every fixed environment,
a `modules` section followed by a `dependencies` section yields the same
pair of sets as the two sections in the reverse order. -/
theorem c5_order_independence (env : Env) (b1 b2 : List TokenTree)
    (ns : List String) (ds : List (List String))
    (h1 : parse_namespace [] b1 = (ns, []))
    (h2 : parse_dependencies env (b2.length + 1) [] b2 = Except.ok (ds, [])) :
    parse_import_stream env (TokenTree.ident "modules" :: TokenTree.punct ':'
        :: (b1 ++ TokenTree.ident "dependencies" :: TokenTree.punct ':' :: b2))
      = parse_import_stream env (TokenTree.ident "dependencies" :: TokenTree.punct ':'
        :: (b2 ++ TokenTree.ident "modules" :: TokenTree.punct ':' :: b1)) := by
  have runA : parse_import_stream_loop env 3 [] [] ParseState.Neither
      (TokenTree.ident "modules" :: TokenTree.punct ':'
        :: (b1 ++ TokenTree.ident "dependencies" :: TokenTree.punct ':' :: b2))
      = Except.ok (setExtend [] ds, setExtend [] ns) := by
    rw [show (3 : Nat) = 2 + 1 from rfl, parse_import_stream_loop_succ,
      if_neg (by decide : ¬(ParseState.Neither = ParseState.Both))]
    have hcat1 : parse_category (TokenTree.ident "modules" :: TokenTree.punct ':'
        :: (b1 ++ TokenTree.ident "dependencies" :: TokenTree.punct ':' :: b2))
        = Except.ok (ImportCategory.Namespace,
            b1 ++ TokenTree.ident "dependencies" :: TokenTree.punct ':' :: b2) := by
      simp [parse_category, consume_colon]
    simp only [hcat1]
    have hns1 := parse_namespace_append b1 [] ns
      (TokenTree.ident "dependencies" :: TokenTree.punct ':' :: b2) h1 rfl
    simp only [hns1]
    rw [show (2 : Nat) = 1 + 1 from rfl, parse_import_stream_loop_succ,
      if_neg (by decide : ¬(ParseState.parsed_namespace ParseState.Neither = ParseState.Both))]
    have hcat2 : parse_category (TokenTree.ident "dependencies" :: TokenTree.punct ':' :: b2)
        = Except.ok (ImportCategory.Dependency, b2) := by
      simp [parse_category, consume_colon]
    simp only [hcat2, h2]
    rw [show (1 : Nat) = 0 + 1 from rfl, parse_import_stream_loop_succ]
    rfl
  have runB : parse_import_stream_loop env 3 [] [] ParseState.Neither
      (TokenTree.ident "dependencies" :: TokenTree.punct ':'
        :: (b2 ++ TokenTree.ident "modules" :: TokenTree.punct ':' :: b1))
      = Except.ok (setExtend [] ds, setExtend [] ns) := by
    rw [show (3 : Nat) = 2 + 1 from rfl, parse_import_stream_loop_succ,
      if_neg (by decide : ¬(ParseState.Neither = ParseState.Both))]
    have hcat1 : parse_category (TokenTree.ident "dependencies" :: TokenTree.punct ':'
        :: (b2 ++ TokenTree.ident "modules" :: TokenTree.punct ':' :: b1))
        = Except.ok (ImportCategory.Dependency,
            b2 ++ TokenTree.ident "modules" :: TokenTree.punct ':' :: b1) := by
      simp [parse_category, consume_colon]
    simp only [hcat1]
    have hpdB := parse_dependencies_append (b2.length + 1) env [] ds b2
      (TokenTree.ident "modules" :: TokenTree.punct ':' :: b1)
      ((b2 ++ TokenTree.ident "modules" :: TokenTree.punct ':' :: b1).length + 1)
      h2 rfl (by simp only [List.length_append, List.length_cons]; omega)
    simp only [hpdB]
    rw [show (2 : Nat) = 1 + 1 from rfl, parse_import_stream_loop_succ,
      if_neg (by decide : ¬(ParseState.parsed_dependency ParseState.Neither = ParseState.Both))]
    have hcat2 : parse_category (TokenTree.ident "modules" :: TokenTree.punct ':' :: b1)
        = Except.ok (ImportCategory.Namespace, b1) := by
      simp [parse_category, consume_colon]
    simp only [hcat2, h1]
    rw [show (1 : Nat) = 0 + 1 from rfl, parse_import_stream_loop_succ]
    rfl
  have hA := loop_fuel_mono 3 ((TokenTree.ident "modules" :: TokenTree.punct ':'
      :: (b1 ++ TokenTree.ident "dependencies" :: TokenTree.punct ':' :: b2)).length + 1)
    env [] [] ParseState.Neither _ _ runA
    (by simp only [List.length_append, List.length_cons]; omega)
  have hB := loop_fuel_mono 3 ((TokenTree.ident "dependencies" :: TokenTree.punct ':'
      :: (b2 ++ TokenTree.ident "modules" :: TokenTree.punct ':' :: b1)).length + 1)
    env [] [] ParseState.Neither _ _ runB
    (by simp only [List.length_append, List.length_cons]; omega)
  show parse_import_stream_loop env _ [] [] ParseState.Neither _
      = parse_import_stream_loop env _ [] [] ParseState.Neither _
  rw [hA, hB]

/-- Witness for C5 at one literal body per section. -/
theorem c5_order_independence_witness :
    parse_namespace [] [TokenTree.lit "\x22Foo\x22"] = (["foo"], []) ∧
    parse_dependencies sample_env 2 [] [TokenTree.lit "\x22x.winmd\x22"]
      = Except.ok ([["x.winmd"]], []) ∧
    parse_import_stream sample_env (TokenTree.ident "modules" :: TokenTree.punct ':'
        :: ([TokenTree.lit "\x22Foo\x22"] ++ TokenTree.ident "dependencies"
          :: TokenTree.punct ':' :: [TokenTree.lit "\x22x.winmd\x22"]))
      = parse_import_stream sample_env (TokenTree.ident "dependencies" :: TokenTree.punct ':'
        :: ([TokenTree.lit "\x22x.winmd\x22"] ++ TokenTree.ident "modules"
          :: TokenTree.punct ':' :: [TokenTree.lit "\x22Foo\x22"])) :=
  ⟨by decide, by decide,
    c5_order_independence sample_env [TokenTree.lit "\x22Foo\x22"]
      [TokenTree.lit "\x22x.winmd\x22"] ["foo"] [["x.winmd"]]
      (by decide) (by decide)⟩
